import Mathlib

/-
Verification development for the `data_cleaning_visualization` pipeline
(`src/cleaning.py`).  The cleaning stages and the three aggregate
computations are shallowly embedded as executable Lean definitions and the
specification's claims are settled as theorems about them.

Modelling conventions:
* polars `Utf8` cells are `Option String` (None = null cell); `Float64`
  cells are `Option ℚ` (exact rationals stand in for IEEE doubles, whose
  bit-level behaviour is not at issue in any claim); `Int64` cells are
  `Option Int`.
* string operations (`\s`, `\W`, `lower`) are modelled at ASCII level,
  matching Python/polars semantics on ASCII data.
* a polars expression that raises is embedded as `Except PErr`; a caught
  exception is an explicit `match` on the `Except` value.
-/

/-- ASCII whitespace, modelling the regex class `\s` used by
`str.replace_all(r'^\s+|\s+$', '')` and Python `str.strip`. -/
def isSpaceChar (c : Char) : Bool :=
  c == ' ' || c == '\t' || c == '\n' || c == '\r' || c == '\x0b' || c == '\x0c'

/-- Remove leading and trailing whitespace runs: the effect of the source's
`replace_all(r'^\s+|\s+$', '')` (and of Python `strip()`). -/
def trimWs (s : String) : String :=
  String.mk (((s.toList.dropWhile isSpaceChar).reverse.dropWhile isSpaceChar).reverse)

/-- ASCII lower-casing of one character, modelling Python `str.lower` /
polars `str.to_lowercase` on ASCII input. -/
def lowerChar (c : Char) : Char :=
  if 65 ≤ c.toNat ∧ c.toNat ≤ 90 then Char.ofNat (c.toNat + 32) else c

/-- ASCII lower-casing of a string. -/
def lowerStr (s : String) : String :=
  String.mk (s.toList.map lowerChar)

/-- The regex class `\w` (word character) at ASCII level: `[a-zA-Z0-9_]`. -/
def isWordChar (c : Char) : Bool :=
  decide ((65 ≤ c.toNat ∧ c.toNat ≤ 90) ∨ (97 ≤ c.toNat ∧ c.toNat ≤ 122) ∨
          (48 ≤ c.toNat ∧ c.toNat ≤ 57) ∨ c.toNat = 95)

/-- A character allowed by the spec's header pattern `[a-z0-9_]`. -/
def isPatChar (c : Char) : Bool :=
  decide ((97 ≤ c.toNat ∧ c.toNat ≤ 122) ∨ (48 ≤ c.toNat ∧ c.toNat ≤ 57) ∨
          c.toNat = 95)

/-- Worker for `collapseNonWord`: the flag records whether the previous
character belonged to a non-word run (in which case further non-word
characters of the same run emit nothing). -/
def collapseAux : Bool → List Char → List Char
  | _, [] => []
  | inRun, c :: cs =>
    if isWordChar c then c :: collapseAux false cs
    else if inRun then collapseAux true cs
    else '_' :: collapseAux true cs

/-- `re.sub(r'\W+', '_', ·)`: replace each maximal run of non-word
characters by a single underscore. -/
def collapseNonWord (l : List Char) : List Char :=
  collapseAux false l

/-- Header normalizer (source step 2):
`re.sub(r'\W+', '_', col.strip().lower())`. -/
def normHeader (s : String) : String :=
  String.mk (collapseNonWord (lowerStr (trimWs s)).toList)

/-- The source's `NULL_EQUIV` list (step 3). -/
def NULL_EQUIV : List String := ["", " ", "na", "n/a", "null", "-"]

/-- Text-column cell normalizer (source step 3): the
`when(trim.lower.is_in(NULL_EQUIV)).then(lit "null").otherwise(trim.lower)`
expression, applied cell-wise; a null cell stays null. -/
def cleanTextCell : Option String → Option String
  | none => none
  | some s =>
    if lowerStr (trimWs s) ∈ NULL_EQUIV then some "null"
    else some (lowerStr (trimWs s))

/-- A typed column, as polars dtypes relevant to this pipeline. -/
inductive ColV where
  | utf8 (cells : List (Option String))
  | f64 (cells : List (Option ℚ))
  | i64 (cells : List (Option Int))
deriving DecidableEq

/-- Step 3 at column level: the cleaning expression is built only for
columns whose dtype is `pl.Utf8`; other columns are untouched. -/
def cleanColV : ColV → ColV
  | .utf8 cs => .utf8 (cs.map cleanTextCell)
  | c => c

/-- A calendar date, the payload of a `pl.Date` cell. -/
structure Date where
  y : Nat
  m : Nat
  d : Nat
deriving DecidableEq

/-- Gregorian leap-year rule (chrono's date validation). -/
def isLeap (y : Nat) : Bool :=
  y % 4 == 0 && (y % 100 != 0 || y % 400 == 0)

/-- Days in a month, with the leap rule. -/
def daysInMonth (y m : Nat) : Nat :=
  if m = 2 then (if isLeap y then 29 else 28)
  else if m = 4 ∨ m = 6 ∨ m = 9 ∨ m = 11 then 30
  else 31

/-- Build a date after chrono-style validity checking. -/
def mkDate? (y m d : Nat) : Option Date :=
  if 1 ≤ m ∧ m ≤ 12 ∧ 1 ≤ d ∧ d ≤ daysInMonth y m then some ⟨y, m, d⟩
  else none

/-- Numeric value of a digit list (most significant first). -/
def digitsVal (l : List Char) : Nat :=
  l.foldl (fun a c => 10 * a + (c.toNat - 48)) 0

/-- A numeric field of a date layout: 1 to `maxLen` ASCII digits
(chrono's greedy bounded numeric item, given that the separator following
it is not a digit). -/
def numField (maxLen : Nat) (s : String) : Option Nat :=
  if 1 ≤ s.length ∧ s.length ≤ maxLen ∧ s.toList.all Char.isDigit then
    some (digitsVal s.toList)
  else none

/-- The three candidate date layouts of the source's `date_formats` list. -/
inductive DateFmt where
  | ymd
  | mdy
  | dmy
deriving DecidableEq

/-- Split a character list at every occurrence of `sep` (the behaviour of
`str.splitOn` for a one-character separator). -/
def splitChar (sep : Char) : List Char → List (List Char)
  | [] => [[]]
  | c :: cs =>
    if c = sep then [] :: splitChar sep cs
    else
      match splitChar sep cs with
      | [] => [[c]]
      | h :: t => (c :: h) :: t

/-- Split a string at every occurrence of the separator character. -/
def splitOnCharS (sep : Char) (s : String) : List String :=
  (splitChar sep s.toList).map String.mk

/-- Strict parse of one string under one layout (chrono `strptime` with the
whole input consumed and the date validated). -/
def parseWith : DateFmt → String → Option Date
  | .ymd, s =>
    match splitOnCharS '-' s with
    | [ys, ms, ds] => do
      let y ← numField 4 ys
      let m ← numField 2 ms
      let d ← numField 2 ds
      mkDate? y m d
    | _ => none
  | .mdy, s =>
    match splitOnCharS '/' s with
    | [ms, ds, ys] => do
      let m ← numField 2 ms
      let d ← numField 2 ds
      let y ← numField 4 ys
      mkDate? y m d
    | _ => none
  | .dmy, s =>
    match splitOnCharS '/' s with
    | [ds, ms, ys] => do
      let d ← numField 2 ds
      let m ← numField 2 ms
      let y ← numField 4 ys
      mkDate? y m d
    | _ => none

/-- Errors a polars expression can raise in the modelled fragment. -/
inductive PErr where
  | computeError (msg : String)
  | columnNotFound (col : String)
deriving DecidableEq

/-- Strict whole-column `str.strptime(pl.Date, format, strict=True)`:
null cells pass through as null, any non-null cell that fails the layout
raises `ComputeError`. -/
def parseColWith (f : DateFmt) : List (Option String) → Except PErr (List (Option Date))
  | [] => .ok []
  | none :: cs =>
    match parseColWith f cs with
    | .error e => .error e
    | .ok ds => .ok (none :: ds)
  | some s :: cs =>
    match parseWith f s with
    | none => .error (.computeError "strict date parse failed")
    | some d =>
      match parseColWith f cs with
      | .error e => .error e
      | .ok ds => .ok (some d :: ds)

/-- The source's `date_formats` list, in order. -/
def dateFormats : List DateFmt := [.ymd, .mdy, .dmy]

/-- One parse attempt of the source's retry loop.  The source hardcodes
`format="%m/%d/%Y"` in the `strptime` call, so the attempt ignores the
loop's format variable and always parses with the MDY layout. -/
def tryParseAttemptHardcoded (cells : List (Option String)) :
    Except PErr (List (Option Date)) :=
  parseColWith .mdy cells

/-- The retry loop of source step 4: for each format, try the (hardcoded)
whole-column parse; `break` on the first success, `continue` on
`ComputeError`; `PARSED` stays `None` when every attempt fails. -/
def tryFormatsLoop : List DateFmt → List (Option String) → Option (List (Option Date))
  | [], _ => none
  | _fmt :: rest, cells =>
    match tryParseAttemptHardcoded cells with
    | .ok parsed => some parsed
    | .error _ => tryFormatsLoop rest cells

/-- Zero-padded decimal rendering. -/
def padNum (w n : Nat) : String :=
  String.mk (List.replicate (w - (toString n).length) '0') ++ toString n

/-- `dt.strftime("%Y-%m-%d")` on one date. -/
def dateToIso (d : Date) : String :=
  padNum 4 d.y ++ "-" ++ padNum 2 d.m ++ "-" ++ padNum 2 d.d

/-- Source step 4 for one "trade" text column: run the retry loop; if some
attempt parsed, re-emit the column as ISO strings, else leave the column
unchanged (only a warning is printed). -/
def fixDateColumn (cells : List (Option String)) : List (Option String) :=
  match tryFormatsLoop dateFormats cells with
  | some parsed => parsed.map (Option.map dateToIso)
  | none => cells

/-- Modelled from the spec: the date-normalizer loop as the specification's
algorithm describes it — the attempt for candidate `fmt` actually parses
with `fmt`.  This definition exists only to exhibit the divergence between
the spec's intended loop and the implemented loop (claim C1); it is not an
embedding of the source. -/
def tryFormatsLoopSpec : List DateFmt → List (Option String) → Option (List (Option Date))
  | [], _ => none
  | fmt :: rest, cells =>
    match parseColWith fmt cells with
    | .ok parsed => some parsed
    | .error _ => tryFormatsLoopSpec rest cells

/-- Modelled from the spec: step 4 with the loop that genuinely tries each
candidate layout (companion of `tryFormatsLoopSpec`). -/
def fixDateColumnSpec (cells : List (Option String)) : List (Option String) :=
  match tryFormatsLoopSpec dateFormats cells with
  | some parsed => parsed.map (Option.map dateToIso)
  | none => cells

/-- Sign parsing for numeric string casts (`-` / optional `+`). -/
def parseSign : List Char → Bool × List Char
  | '-' :: l => (true, l)
  | '+' :: l => (false, l)
  | l => (false, l)

/-- Unsigned decimal mantissa: digits, optionally with one decimal point;
at least one digit overall. -/
def parseUnsignedDec (l : List Char) : Option ℚ :=
  match l.span Char.isDigit with
  | (ip, rest) =>
    match rest with
    | [] => if ip.isEmpty then none else some (digitsVal ip)
    | '.' :: fp =>
      if fp.all Char.isDigit ∧ ¬(ip.isEmpty ∧ fp.isEmpty) then
        some ((digitsVal ip : ℚ) + (digitsVal fp : ℚ) / (10 : ℚ) ^ fp.length)
      else none
    | _ => none

/-- Signed decimal mantissa. -/
def parseSignedDec (l : List Char) : Option ℚ :=
  match parseSign l with
  | (neg, l2) => (parseUnsignedDec l2).map (fun q => if neg then -q else q)

/-- Signed integer exponent field. -/
def parseExpInt (l : List Char) : Option ℤ :=
  match parseSign l with
  | (neg, l2) =>
    if l2.isEmpty ∨ ¬ l2.all Char.isDigit then none
    else some (if neg then -(digitsVal l2 : ℤ) else (digitsVal l2 : ℤ))

/-- Numeric value of a decimal string, modelling the string-to-float
conversion behind polars `cast(pl.Float64, strict=False)`: optional sign,
digits with optional fraction, optional exponent; anything else (such as
the literal text "null") fails to convert. -/
def parseFloatQ (s : String) : Option ℚ :=
  match s.toList.span (fun c => !(c == 'e' || c == 'E')) with
  | (m, rest) =>
    match rest with
    | [] => parseSignedDec m
    | _ :: ex => do
      let q ← parseSignedDec m
      let e ← parseExpInt ex
      pure (q * (10 : ℚ) ^ e)

/-- Integer value of a decimal string, modelling the string-to-integer
conversion behind polars `cast(pl.Int64, strict=False)`. -/
def parseIntZ (s : String) : Option ℤ :=
  match parseSign s.toList with
  | (neg, l2) =>
    if l2.isEmpty ∨ ¬ l2.all Char.isDigit then none
    else some (if neg then -(digitsVal l2 : ℤ) else (digitsVal l2 : ℤ))

/-- Schema-enforcement cell cast `cast(pl.Float64, strict=False)` on a text
cell: unconvertible values become genuine nulls instead of raising. -/
def castFloat (c : Option String) : Option ℚ :=
  c.bind parseFloatQ

/-- Schema-enforcement cell cast `cast(pl.Int64, strict=False)` on a text
cell. -/
def castInt (c : Option String) : Option ℤ :=
  c.bind parseIntZ

/-- Schema-enforcement cast for a column whose target dtype is already
`pl.Utf8`: the identity. -/
def castUtf8 (c : Option String) : Option String := c

/-- A row of the cleaned table, as a list of typed cells (used for the
`df.unique()` deduplication step, which compares entire rows). -/
inductive CellV where
  | str (c : Option String)
  | num (c : Option ℚ)
  | int (c : Option ℤ)
deriving DecidableEq

/-- Source step 6, `df.unique()`: remove exact duplicate rows.  polars
guarantees only the resulting row set (no stable order); the embedding
picks the representative that keeps first occurrences. -/
def uniqueRows (rs : List (List CellV)) : List (List CellV) :=
  rs.dedup

/-- Mean of a list of rationals (`Expr.mean` over the non-null values that
remain after the aggregate's filter). -/
def meanQ (xs : List ℚ) : ℚ :=
  xs.sum / xs.length

/-- `group_by(keys).agg(mean)`: one output row per distinct key (kept in
first-occurrence order as a canonical representative of polars' unordered
group-by), whose value is the mean of the grouped values. -/
def groupMeans {K : Type} [DecidableEq K] (l : List (K × ℚ)) : List (K × ℚ) :=
  ((l.map Prod.fst).eraseDups).map
    (fun k => (k, meanQ ((l.filter (fun p => p.1 == k)).map Prod.snd)))

/-- Aggregate 1 core: filter rows with non-null `close_price`, group by
`(trade_date, ticker)`, mean of `close_price`. -/
def agg1Core (rows : List (Option String × Option String × Option ℚ)) :
    List ((Option String × Option String) × ℚ) :=
  groupMeans (rows.filterMap (fun r => r.2.2.map (fun v => ((r.1, r.2.1), v))))

/-- Aggregate 2 core: filter rows with non-null `volume`, group by
`sector`, mean of `volume`. -/
def agg2Core (rows : List (Option String × Option ℤ)) :
    List (Option String × ℚ) :=
  groupMeans (rows.filterMap (fun r => r.2.map (fun v => (r.1, (v : ℚ)))))

/-- A row of the frame Aggregate 3 works on after its `strptime`:
`trade_date` (now `pl.Date`), `ticker`, `close_price`. -/
structure R3 where
  td : Option Date
  tk : Option String
  cp : Option ℚ
deriving DecidableEq

/-- Strict lexicographic order on dates. -/
def dateLtB (a b : Date) : Bool :=
  decide (a.y < b.y ∨ (a.y = b.y ∧ (a.m < b.m ∨ (a.m = b.m ∧ a.d < b.d))))

/-- Non-strict order on nullable dates, nulls first (polars `sort`
default). -/
def optDateLe (a b : Option Date) : Bool :=
  match a, b with
  | none, _ => true
  | some _, none => false
  | some x, some y => dateLtB x y || x == y

/-- Strict order on nullable strings, nulls first. -/
def optStrLt (a b : Option String) : Bool :=
  match a, b with
  | none, none => false
  | none, some _ => true
  | some _, none => false
  | some x, some y => decide (x < y)

/-- Row order for `sort(["ticker", "trade_date"])`. -/
def rowLeB (a b : R3) : Bool :=
  if a.tk = b.tk then optDateLe a.td b.td else optStrLt a.tk b.tk

/-- `sort(["ticker", "trade_date"])` on the Aggregate 3 frame.  polars
promises only sortedness by the keys; insertion sort is the embedding's
canonical representative. -/
def sortRows (rows : List R3) : List R3 :=
  rows.insertionSort (fun a b => rowLeB a b = true)

/-- `(close_price / close_price.shift(1) - 1).over("ticker")` on rows
already sorted by ticker: each row's return divides its close by the
previous row's close when that row belongs to the same ticker group, and
is null for the first row of a group or when either close is null. -/
def addReturns : Option (Option String × Option ℚ) → List R3 →
    List (R3 × Option ℚ)
  | _, [] => []
  | prev, r :: rs =>
    let ret : Option ℚ :=
      match prev with
      | some (ptk, pcp) =>
        if r.tk = ptk then
          match r.cp, pcp with
          | some c, some p => some (c / p - 1)
          | _, _ => none
        else none
      | none => none
    (r, ret) :: addReturns (some (r.tk, r.cp)) rs

/-- Aggregate 3 core (post-`strptime`): sort by (ticker, trade_date),
compute per-ticker lagged returns, `select(["trade_date", "ticker",
"return"])`, `drop_nulls()`. -/
def agg3Compute (rows : List R3) : List (Option Date × Option String × Option ℚ) :=
  ((addReturns none (sortRows rows)).map (fun p => (p.1.td, p.1.tk, p.2))).filter
    (fun t => t.1.isSome && t.2.1.isSome && t.2.2.isSome)

/-- First non-null cell of a column (what polars inspects to infer a
`strptime` format when none is given). -/
def firstSome : List (Option String) → Option String
  | [] => none
  | none :: cs => firstSome cs
  | some s :: _ => some s

/-- A date layout polars' no-format `strptime` inference can pick: a
field order with a separator character and a 2- or 4-digit year, or the
compact separator-free YMD form. -/
inductive InfShape where
  | sep (ord : DateFmt) (sepc : Char) (y4 : Bool)
  | compactYMD (y4 : Bool)
deriving DecidableEq

/-- Year field of an inferred layout: `%Y` (1-4 digits) when `y4`, else
the two-digit `%y` with chrono's 1969 pivot (00-68 are 20xx, 69-99 are
19xx). -/
def yearField (y4 : Bool) (s : String) : Option Nat :=
  if y4 then numField 4 s
  else (numField 2 s).map (fun y => if y < 69 then 2000 + y else 1900 + y)

/-- Strict parse of one string under one inferable layout. -/
def parseShape : InfShape → String → Option Date
  | .sep ord c y4, s =>
    match splitOnCharS c s with
    | [a, b, e] =>
      match ord with
      | .ymd => do
        let y ← yearField y4 a
        let m ← numField 2 b
        let d ← numField 2 e
        mkDate? y m d
      | .mdy => do
        let m ← numField 2 a
        let d ← numField 2 b
        let y ← yearField y4 e
        mkDate? y m d
      | .dmy => do
        let d ← numField 2 a
        let m ← numField 2 b
        let y ← yearField y4 e
        mkDate? y m d
    | _ => none
  | .compactYMD y4, s =>
    let l := s.toList
    let ylen := if y4 then 4 else 2
    if l.length = ylen + 4 ∧ l.all Char.isDigit then do
      let y ← yearField y4 (String.mk (l.take ylen))
      let m ← numField 2 (String.mk ((l.drop ylen).take 2))
      let d ← numField 2 (String.mk (l.drop (ylen + 2)))
      mkDate? y m d
    else none

/-- The date layouts polars' format inference is modelled over: a
superset of the polars-time pattern families `DATE_Y_M_D` and
`DATE_D_M_Y` (separators `-`, `/`, `.`; 4- or 2-digit years; compact
forms), with month-first layouts added defensively.  Because the set
over-approximates what real polars can infer, a value rejected by every
layout here is rejected by polars' inference too — which is the only
direction the theorems rely on.  Year-first layouts come first so that
unambiguous ISO-style values resolve as polars resolves them;
day-before-month mirrors polars' preference on ambiguous values. -/
def polarsInferPats : List InfShape :=
  [.sep .ymd '-' true, .sep .ymd '/' true, .sep .ymd '.' true,
   .sep .ymd '-' false, .sep .ymd '/' false, .sep .ymd '.' false,
   .compactYMD true, .compactYMD false,
   .sep .dmy '-' true, .sep .dmy '/' true, .sep .dmy '.' true,
   .sep .dmy '-' false, .sep .dmy '/' false, .sep .dmy '.' false,
   .sep .mdy '/' true, .sep .mdy '-' true, .sep .mdy '.' true,
   .sep .mdy '/' false, .sep .mdy '-' false, .sep .mdy '.' false]

/-- Models polars `str.strptime(pl.Date)` with no format argument: the
layout is inferred from the first non-null value over `polarsInferPats`;
inference failure raises. -/
def inferFmt (cells : List (Option String)) : Option InfShape :=
  match firstSome cells with
  | none => none
  | some s => polarsInferPats.find? (fun p => (parseShape p s).isSome)

/-- Strict whole-column parse under one inferred layout (the inference
companion of `parseColWith`). -/
def parseColPat (p : InfShape) : List (Option String) → Except PErr (List (Option Date))
  | [] => .ok []
  | none :: cs =>
    match parseColPat p cs with
    | .error e => .error e
    | .ok ds => .ok (none :: ds)
  | some s :: cs =>
    match parseShape p s with
    | none => .error (.computeError "strict date parse failed")
    | some d =>
      match parseColPat p cs with
      | .error e => .error e
      | .ok ds => .ok (some d :: ds)

/-- Models polars `str.strptime(pl.Date)` (no format, `strict=True`
default): infer the layout, then strictly parse the whole column; either
failure raises a `ComputeError` that nothing in the source catches. -/
def strptimeInfer (cells : List (Option String)) : Except PErr (List (Option Date)) :=
  match inferFmt cells with
  | none => .error (.computeError "could not infer date format")
  | some p => parseColPat p cells

/-- The cleaned table as the aggregates stage sees it: each schema column
either present (with its typed cells) or absent from the frame. -/
structure Df where
  tradeDate : Option (List (Option String))
  ticker : Option (List (Option String))
  sector : Option (List (Option String))
  closePrice : Option (List (Option ℚ))
  volume : Option (List (Option ℤ))

/-- Zip three columns into rows. -/
def zip3 {α β γ : Type} (a : List α) (b : List β) (c : List γ) : List (α × β × γ) :=
  a.zip (b.zip c)

/-- Aggregate 1 on the frame: referencing a missing column raises
`ColumnNotFound` (the filter touches `close_price` first, then `group_by`
touches `trade_date` and `ticker`). -/
def computeAgg1 (df : Df) : Except PErr (List ((Option String × Option String) × ℚ)) :=
  match df.closePrice with
  | none => .error (.columnNotFound "close_price")
  | some cp =>
    match df.tradeDate with
    | none => .error (.columnNotFound "trade_date")
    | some td =>
      match df.ticker with
      | none => .error (.columnNotFound "ticker")
      | some tk => .ok (agg1Core (zip3 td tk cp))

/-- Aggregate 2 on the frame (filter touches `volume`, `group_by` touches
`sector`). -/
def computeAgg2 (df : Df) : Except PErr (List (Option String × ℚ)) :=
  match df.volume with
  | none => .error (.columnNotFound "volume")
  | some vol =>
    match df.sector with
    | none => .error (.columnNotFound "sector")
    | some sec => .ok (agg2Core (sec.zip vol))

/-- Aggregate 3 on the frame, reached only under the source's
column-presence guard: re-parse `trade_date` with the format-inferring
strict `strptime` (which may raise), then run the core computation. -/
def computeAgg3 (td tk : List (Option String)) (cp : List (Option ℚ)) :
    Except PErr (List (Option Date × Option String × Option ℚ)) :=
  match strptimeInfer td with
  | .error e => .error e
  | .ok ds => .ok (agg3Compute ((zip3 ds tk cp).map (fun r => ⟨r.1, r.2.1, r.2.2⟩)))

/-- Outcome of the aggregates stage: which artifacts were written before
the stage finished or died, and the uncaught error if it died. -/
structure AggOut where
  agg1 : Option (List ((Option String × Option String) × ℚ))
  agg2 : Option (List (Option String × ℚ))
  agg3 : Option (List (Option Date × Option String × Option ℚ))
  err : Option PErr

/-- Source step 7 in program order: compute and write Aggregate 1, then
Aggregate 2, then — only if `{"ticker","trade_date","close_price"}` is a
subset of the columns — Aggregate 3.  An uncaught error stops the stage;
artifacts already written stay written. -/
def runAggregates (df : Df) : AggOut :=
  match computeAgg1 df with
  | .error e => ⟨none, none, none, some e⟩
  | .ok a1 =>
    match computeAgg2 df with
    | .error e => ⟨some a1, none, none, some e⟩
    | .ok a2 =>
      match df.tradeDate, df.ticker, df.closePrice with
      | some td, some tk, some cp =>
        match computeAgg3 td tk cp with
        | .error e => ⟨some a1, some a2, none, some e⟩
        | .ok a3 => ⟨some a1, some a2, some a3, none⟩
      | _, _, _ => ⟨some a1, some a2, none, none⟩

/-- Whether one cell passes the strict parse under layout `f` (null cells
pass through). -/
def cellOkF (f : DateFmt) : Option String → Bool
  | none => true
  | some s => (parseWith f s).isSome

theorem parseColWith_ok (f : DateFmt) :
    ∀ cells : List (Option String), cells.all (cellOkF f) = true →
      parseColWith f cells = .ok (cells.map (fun c => c.bind (parseWith f))) := by
  intro cells
  induction cells with
  | nil => intro h; rfl
  | cons c cs ih =>
    intro h
    simp only [List.all_cons, Bool.and_eq_true] at h
    cases c with
    | none =>
      simp only [parseColWith, ih h.2, List.map_cons]
      rfl
    | some s =>
      obtain ⟨d, hd⟩ := Option.isSome_iff_exists.mp h.1
      simp only [parseColWith, hd, ih h.2, List.map_cons, Option.some_bind]

theorem parseColWith_err (f : DateFmt) :
    ∀ cells : List (Option String), cells.all (cellOkF f) = false →
      ∃ e, parseColWith f cells = .error e := by
  intro cells
  induction cells with
  | nil => intro h; simp at h
  | cons c cs ih =>
    intro h
    simp only [List.all_cons, Bool.and_eq_false_iff] at h
    cases c with
    | none =>
      have h2 : cs.all (cellOkF f) = false := by
        rcases h with h | h
        · simp [cellOkF] at h
        · exact h
      obtain ⟨e, he⟩ := ih h2
      exact ⟨e, by simp [parseColWith, he]⟩
    | some s =>
      cases hp : parseWith f s with
      | none => exact ⟨.computeError "strict date parse failed", by simp [parseColWith, hp]⟩
      | some d =>
        have h2 : cs.all (cellOkF f) = false := by
          rcases h with h | h
          · simp [cellOkF, hp] at h
          · exact h
        obtain ⟨e, he⟩ := ih h2
        exact ⟨e, by simp [parseColWith, hp, he]⟩

theorem tryFormatsLoop_ok (cells : List (Option String))
    (h : cells.all (cellOkF .mdy) = true) :
    ∀ fmts : List DateFmt, fmts ≠ [] →
      tryFormatsLoop fmts cells = some (cells.map (fun c => c.bind (parseWith .mdy))) := by
  intro fmts hne
  cases fmts with
  | nil => exact absurd rfl hne
  | cons f rest =>
    simp [tryFormatsLoop, tryParseAttemptHardcoded, parseColWith_ok .mdy cells h]

theorem tryFormatsLoop_err (cells : List (Option String))
    (h : cells.all (cellOkF .mdy) = false) :
    ∀ fmts : List DateFmt, tryFormatsLoop fmts cells = none := by
  intro fmts
  induction fmts with
  | nil => rfl
  | cons f rest ih =>
    obtain ⟨e, he⟩ := parseColWith_err .mdy cells h
    simp [tryFormatsLoop, tryParseAttemptHardcoded, he, ih]

theorem fixDateColumn_char (cells : List (Option String)) :
    fixDateColumn cells =
      if cells.all (cellOkF .mdy) = true then
        cells.map (fun c => (c.bind (parseWith .mdy)).map dateToIso)
      else cells := by
  by_cases hb : cells.all (cellOkF .mdy) = true
  · rw [if_pos hb]
    simp only [fixDateColumn, tryFormatsLoop_ok cells hb dateFormats (by simp [dateFormats]),
      List.map_map]
    rfl
  · have hb2 : cells.all (cellOkF .mdy) = false := by
      cases hx : cells.all (cellOkF .mdy)
      · rfl
      · exact absurd hx hb
    rw [if_neg hb]
    simp [fixDateColumn, tryFormatsLoop_err cells hb2]

theorem fixDateColumn_unchanged_of_memFail (cells : List (Option String)) (s : String)
    (hm : some s ∈ cells) (hf : parseWith .mdy s = none) :
    fixDateColumn cells = cells := by
  have hall : cells.all (cellOkF .mdy) = false := by
    cases hA : cells.all (cellOkF .mdy)
    · rfl
    · have := List.all_eq_true.mp hA _ hm
      simp [cellOkF, hf] at this
  simp [fixDateColumn, tryFormatsLoop_err cells hall]

theorem firstSome_mem : ∀ (cells : List (Option String)) (s : String),
    firstSome cells = some s → some s ∈ cells := by
  intro cells
  induction cells with
  | nil => intro s h; simp [firstSome] at h
  | cons c cs ih =>
    intro s h
    cases c with
    | none =>
      simp only [firstSome] at h
      exact List.mem_cons_of_mem _ (ih s h)
    | some t =>
      simp only [firstSome, Option.some.injEq] at h
      subst h
      exact List.mem_cons_self _ _

/-- Claim C2 (confirmed): inside the retry loop every parse attempt uses
the MM/DD/YYYY layout regardless of the loop's candidate, so a "trade"
text column is converted (and re-emitted as ISO strings) exactly when
every non-null cell strictly parses as MM/DD/YYYY, and is left unchanged
otherwise — no other layout can ever succeed. -/
theorem fixDateColumn_mdy_only (cells : List (Option String)) :
    fixDateColumn cells =
      if cells.all (cellOkF .mdy) = true then
        cells.map (fun c => (c.bind (parseWith .mdy)).map dateToIso)
      else cells :=
  fixDateColumn_char cells

/-- Claim C1 (code bug): the spec's algorithm (and the source's own
comment "Try each format until one works") would convert the column
`["25/12/2023"]` via the DD/MM/YYYY candidate to `["2023-12-25"]`, but the
implemented loop, whose attempts all parse with the hardcoded MM/DD/YYYY
layout, fails every attempt and leaves the column unchanged. -/
theorem dateLoop_hardcoded_divergence :
    fixDateColumn [some "25/12/2023"] = [some "25/12/2023"] ∧
    fixDateColumnSpec [some "25/12/2023"] = [some "2023-12-25"] := by
  decide

/-- Claim C3 (confirmed): on a text column, a cell whose trimmed
lowercased value lies in the null-equivalent set becomes the literal
string "null", any other cell becomes its trimmed lowercased value, null
cells stay null, and non-text columns are left untouched by the cleaning
stage. -/
theorem cleanText_null_equiv :
    (∀ s : String, cleanTextCell (some s) =
      some (if lowerStr (trimWs s) ∈ NULL_EQUIV then "null" else lowerStr (trimWs s))) ∧
    cleanTextCell none = none ∧
    (∀ cs : List (Option ℚ), cleanColV (.f64 cs) = .f64 cs) ∧
    (∀ cs : List (Option ℤ), cleanColV (.i64 cs) = .i64 cs) ∧
    cleanTextCell (some " N/A ") = some "null" ∧
    cleanTextCell (some "  AbC ") = some "abc" := by
  refine ⟨?_, rfl, fun cs => rfl, fun cs => rfl, by decide, by decide⟩
  intro s
  by_cases h : lowerStr (trimWs s) ∈ NULL_EQUIV
  · simp [cleanTextCell, h]
  · simp [cleanTextCell, h]

/-- Claim C5 (confirmed): if some cell of a "trade" text column fails the
strict parse under all three candidate layouts, the date-normalization
stage catches every `ComputeError` internally (total function, nothing
propagates) and leaves the column exactly as it was. -/
theorem dateStage_unparseable_unchanged (cells : List (Option String))
    (h : ∃ s, some s ∈ cells ∧ parseWith .ymd s = none ∧
      parseWith .mdy s = none ∧ parseWith .dmy s = none) :
    fixDateColumn cells = cells := by
  obtain ⟨s, hm, _, hmdy, _⟩ := h
  exact fixDateColumn_unchanged_of_memFail cells s hm hmdy

/-- Witness for C5 at the concrete column `["hello"]`. -/
theorem dateStage_unparseable_unchanged_wit :
    fixDateColumn [some "hello"] = [some "hello"] :=
  dateStage_unparseable_unchanged [some "hello"]
    ⟨"hello", by decide, by decide, by decide, by decide⟩

/-- Claim C9 (confirmed): after `df.unique()` no two surviving rows are
identical across every column, and deduplicating an already-deduplicated
table yields the same table. -/
theorem uniqueRows_nodup_idem (rs : List (List CellV)) :
    (uniqueRows rs).Nodup ∧ uniqueRows (uniqueRows rs) = uniqueRows rs :=
  ⟨List.nodup_dedup rs, List.dedup_idem⟩

/-- Claim C10 (confirmed): the non-strict schema cast turns a text cell
holding the literal "null" into a genuine null for the numeric target
columns (and leaves it as the text "null" where the target stays Utf8),
and a row whose filtered column is null contributes nothing to Aggregate 1
or Aggregate 2 — their `is_not_null` filters drop it before grouping. -/
theorem null_string_cast_excluded :
    castFloat (some "null") = none ∧
    castInt (some "null") = none ∧
    castUtf8 (some "null") = some "null" ∧
    (∀ (td tk : Option String) (rows : List (Option String × Option String × Option ℚ)),
      agg1Core ((td, tk, none) :: rows) = agg1Core rows) ∧
    (∀ (sec : Option String) (rows : List (Option String × Option ℤ)),
      agg2Core ((sec, none) :: rows) = agg2Core rows) := by
  refine ⟨by decide, by decide, rfl, ?_, ?_⟩
  · intro td tk rows
    simp [agg1Core]
  · intro sec rows
    simp [agg2Core]

theorem ofNat_shift_eval : ∀ n < 91, 65 ≤ n → (Char.ofNat (n + 32)).toNat = n + 32 := by
  decide

theorem lowerChar_not_upper (c : Char) :
    ¬(65 ≤ (lowerChar c).toNat ∧ (lowerChar c).toNat ≤ 90) := by
  by_cases h : 65 ≤ c.toNat ∧ c.toNat ≤ 90
  · have hv := ofNat_shift_eval c.toNat (by omega) h.1
    simp only [lowerChar, if_pos h, hv]
    omega
  · simp only [lowerChar, if_neg h]
    omega

theorem isPat_of_isWord (c : Char) (h : isWordChar c = true)
    (h2 : ¬(65 ≤ c.toNat ∧ c.toNat ≤ 90)) : isPatChar c = true := by
  simp only [isWordChar, decide_eq_true_eq] at h
  simp only [isPatChar, decide_eq_true_eq]
  omega

theorem collapseAux_pat : ∀ (l : List Char) (b : Bool),
    (∀ c ∈ l, ¬(65 ≤ c.toNat ∧ c.toNat ≤ 90)) →
    ∀ c ∈ collapseAux b l, isPatChar c = true := by
  intro l
  induction l with
  | nil => intro b h c hc; simp [collapseAux] at hc
  | cons a as ih =>
    intro b h c hc
    by_cases hw : isWordChar a
    · simp only [collapseAux, if_pos hw] at hc
      rcases List.mem_cons.mp hc with hceq | hc2
      · subst hceq
        exact isPat_of_isWord c hw (h c (List.mem_cons_self c as))
      · exact ih false (fun x hx => h x (List.mem_cons_of_mem _ hx)) c hc2
    · simp only [collapseAux, if_neg hw] at hc
      cases b with
      | true =>
        simp only [if_pos rfl] at hc
        exact ih true (fun x hx => h x (List.mem_cons_of_mem _ hx)) c hc
      | false =>
        simp only [Bool.false_eq_true, if_neg] at hc
        rcases List.mem_cons.mp hc with hceq | hc2
        · subst hceq; decide
        · exact ih true (fun x hx => h x (List.mem_cons_of_mem _ hx)) c hc2

/-- Claim C4, counterexample: on input column name "price!" the normalizer
yields "price_", which ends in an underscore, refuting the claim's
conjunction "matches the pattern and has no leading or trailing
underscores". -/
theorem normHeader_edge_underscore_cex :
    normHeader "price!" = "price_" ∧
    ¬(((normHeader "price!").toList.all isPatChar = true ∧
        1 ≤ (normHeader "price!").length) ∧
      (normHeader "price!").toList.head? ≠ some '_' ∧
      (normHeader "price!").toList.getLast? ≠ some '_') := by
  decide

/-- Claim C4 (amended): every character of a normalized header is a
lowercase letter, a digit or an underscore (the header matches
`^[a-z0-9_]*$`), but the header may be empty and may begin or end with an
underscore when the stripped name begins or ends with non-word
characters. -/
theorem normHeader_charset (s : String) :
    (normHeader s).toList.all isPatChar = true := by
  rw [List.all_eq_true]
  intro c hc
  have hc2 : c ∈ collapseAux false ((lowerStr (trimWs s)).toList) := hc
  apply collapseAux_pat _ false _ c hc2
  intro x hx
  have hx2 : x ∈ (trimWs s).toList.map lowerChar := hx
  obtain ⟨y, _, hy⟩ := List.mem_map.mp hx2
  rw [← hy]
  exact lowerChar_not_upper y

/-- Cleaned frame with the `close_price` column absent (and the other
schema columns present), exercising Aggregate 3's missing-column guard. -/
def dfMissingClose : Df :=
  ⟨some [some "2023-01-01"], some [some "aapl"], some [some "tech"], none, some [some 100]⟩

/-- Claim C7, counterexample: with `close_price` absent the agg3 guard
would skip Aggregate 3, but Aggregate 1 itself references `close_price`
and raises first, so an error is raised and Aggregates 1 and 2 are not
produced — refuting "no error is raised, while Aggregates 1 and 2 are
still produced". -/
theorem agg3_skip_claim_cex :
    (runAggregates dfMissingClose).agg3.isNone = true ∧
    ¬((runAggregates dfMissingClose).err.isNone = true ∧
      (runAggregates dfMissingClose).agg1.isSome = true ∧
      (runAggregates dfMissingClose).agg2.isSome = true) := by
  decide

/-- Claim C7 (amended): if any of `trade_date`, `ticker`, `close_price` is
absent from the cleaned table, no agg3 artifact is produced; but because
Aggregate 1 references those same columns, the run raises a
column-not-found error in Aggregate 1 first, so no aggregate artifact at
all is produced. -/
theorem missing_column_aborts_aggregates (df : Df)
    (h : df.tradeDate = none ∨ df.ticker = none ∨ df.closePrice = none) :
    (runAggregates df).agg3 = none ∧ (runAggregates df).agg1 = none ∧
    (runAggregates df).agg2 = none ∧ (runAggregates df).err.isSome = true := by
  obtain ⟨td, tk, sec, cp, vol⟩ := df
  rcases h with h | h | h
  · subst h
    cases cp with
    | none => simp [runAggregates, computeAgg1]
    | some c => simp [runAggregates, computeAgg1]
  · subst h
    cases cp with
    | none => simp [runAggregates, computeAgg1]
    | some c =>
      cases td with
      | none => simp [runAggregates, computeAgg1]
      | some t => simp [runAggregates, computeAgg1]
  · subst h
    simp [runAggregates, computeAgg1]

/-- Cleaned frame with the `ticker` column absent. -/
def dfMissingTicker : Df :=
  ⟨some [some "2023-01-01"], none, some [some "tech"], some [some (10 : ℚ)], some [some 5]⟩

/-- Witness for the amended C7 at a frame missing `ticker`. -/
theorem missing_column_aborts_aggregates_wit :
    (runAggregates dfMissingTicker).agg3 = none ∧
    (runAggregates dfMissingTicker).agg1 = none ∧
    (runAggregates dfMissingTicker).agg2 = none ∧
    (runAggregates dfMissingTicker).err.isSome = true :=
  missing_column_aborts_aggregates dfMissingTicker (Or.inr (Or.inl rfl))

/-- Cleaned frame whose `trade_date` column survived cleaning as the
unparseable text "garbage". -/
def dfGarbage : Df :=
  ⟨some [some "garbage"], some [some "aapl"], some [some "tech"],
   some [some (100 : ℚ)], some [some 1000]⟩

/-- Claim C6, counterexample: a trade_date column left as the unparsed
text "garbage" survives the cleaning stage unchanged, but Aggregate 3's
re-parse (`str.strptime(pl.Date)`, strict, format inferred) raises an
uncaught error — the run aborts instead of completing without error. -/
theorem agg3_reparse_raises_cex :
    fixDateColumn [some "garbage"] = [some "garbage"] ∧
    (runAggregates dfGarbage).err.isSome = true ∧
    (runAggregates dfGarbage).agg3.isNone = true := by
  decide

/-- Claim C6 (amended): if trade_date survives cleaning as free text whose
first non-null value matches none of the three cleaning layouts and none
of the layouts polars' format inference supports, Aggregate 3's re-parse
raises and the aggregates stage dies with an uncaught error (the
already-written Aggregates 1 and 2 remain), rather than degrading
silently. -/
theorem agg3_reparse_error_aborts
    (tdCells tkCells secCells : List (Option String))
    (cpCells : List (Option ℚ)) (volCells : List (Option ℤ))
    (h : ∃ s, firstSome tdCells = some s ∧ parseWith .ymd s = none ∧
      parseWith .mdy s = none ∧ parseWith .dmy s = none ∧
      ∀ p ∈ polarsInferPats, parseShape p s = none) :
    fixDateColumn tdCells = tdCells ∧
    (runAggregates ⟨some tdCells, some tkCells, some secCells, some cpCells,
      some volCells⟩).agg3 = none ∧
    (runAggregates ⟨some tdCells, some tkCells, some secCells, some cpCells,
      some volCells⟩).err.isSome = true := by
  obtain ⟨s, hfs, hy, hm, hd, hall⟩ := h
  have hmem := firstSome_mem tdCells s hfs
  have hfind : polarsInferPats.find? (fun p => (parseShape p s).isSome) = none := by
    rw [List.find?_eq_none]
    intro p hp
    simp [hall p hp]
  have hinf : inferFmt tdCells = none := by
    simp [inferFmt, hfs, hfind]
  refine ⟨fixDateColumn_unchanged_of_memFail tdCells s hmem hm, ?_, ?_⟩ <;>
    simp [runAggregates, computeAgg1, computeAgg2, computeAgg3, strptimeInfer, hinf]

/-- Witness for the amended C6 at a one-row frame with trade_date "xx". -/
theorem agg3_reparse_error_aborts_wit :
    fixDateColumn [some "xx"] = [some "xx"] ∧
    (runAggregates ⟨some [some "xx"], some [some "t"], some [some "s"],
      some [some (1 : ℚ)], some [some 2]⟩).agg3 = none ∧
    (runAggregates ⟨some [some "xx"], some [some "t"], some [some "s"],
      some [some (1 : ℚ)], some [some 2]⟩).err.isSome = true :=
  agg3_reparse_error_aborts [some "xx"] [some "t"] [some "s"] [some 1] [some 2]
    ⟨"xx", rfl, by decide, by decide, by decide, by decide⟩

/-- Claim C8 (confirmed): for two rows of one ticker with ascending trade
dates, Aggregate 3 sorts them, computes `close[i] / close[i-1] - 1` within
the ticker group, drops the group's first row (null return), and yields
exactly the one return row for the later date. -/
theorem agg3_two_row_return (t : String) (d1 d2 : Date) (c1 c2 : ℚ)
    (h : dateLtB d1 d2 = true) :
    agg3Compute [⟨some d1, some t, some c1⟩, ⟨some d2, some t, some c2⟩] =
      [(some d2, some t, some (c2 / c1 - 1))] := by
  have hle : rowLeB ⟨some d1, some t, some c1⟩ ⟨some d2, some t, some c2⟩ = true := by
    simp [rowLeB, optDateLe, h]
  simp [agg3Compute, sortRows, List.insertionSort, List.orderedInsert, hle, addReturns]

/-- Witness for C8 at the claim's concrete input: AAPL closes 100 then
110 on consecutive dates give the single return row 0.10 (exactly 1/10 in
the rational model). -/
theorem agg3_two_row_return_wit :
    dateLtB ⟨2023, 1, 1⟩ ⟨2023, 1, 2⟩ = true ∧
    agg3Compute [⟨some ⟨2023, 1, 1⟩, some "AAPL", some 100⟩,
        ⟨some ⟨2023, 1, 2⟩, some "AAPL", some 110⟩] =
      [(some ⟨2023, 1, 2⟩, some "AAPL", some (1 / 10 : ℚ))] := by
  constructor
  · decide
  · rw [agg3_two_row_return "AAPL" ⟨2023, 1, 1⟩ ⟨2023, 1, 2⟩ 100 110 (by decide)]
    norm_num
